import Mathlib

/-! Emissions seeding controller (`src/api/controllers/seeds.controller.js`).

A shallow embedding of the two exported procedures of the controller,
`prepareEmissionsByCountry` and `shouldFetchOnRestart`, together with the
pieces of the JavaScript runtime they rely on (string normalisation, plain
objects, `Promise.allSettled`) and the collaborators they import.

Asynchronous code is embedded in explicit state-passing style: a procedure
takes the behaviour of its collaborators for one run and returns the list of
collaborator calls it made, the cache it leaves behind and its return value.
-/

set_option autoImplicit false

namespace Seeds

/-! ## Strings -/

/-- The code points removed by `String.prototype.trim`: the ECMAScript
`WhiteSpace` and `LineTerminator` productions. -/
def isJsWhiteSpace (c : Char) : Bool :=
  let n := c.toNat
  n == 9 || n == 10 || n == 11 || n == 12 || n == 13 || n == 32 || n == 160 ||
  n == 5760 || (8192 ≤ n && n ≤ 8202) || n == 8232 || n == 8233 || n == 8239 ||
  n == 8287 || n == 12288 || n == 65279

/-- Lower-casing of one character, as `String.prototype.toLowerCase` does it on
the ASCII letters `A`..`Z`; other characters are left as they are. The general
theorems below use no property of the normalisation. -/
def lowerChar (c : Char) : Char :=
  if 65 ≤ c.toNat ∧ c.toNat ≤ 90 then Char.ofNat (c.toNat + 32) else c

/-- The characters of `s.toLowerCase()`. -/
def toLowerCase (s : List Char) : List Char :=
  s.map lowerChar

/-- Removal of leading white space. -/
def trimStart : List Char → List Char
  | [] => []
  | c :: cs => if isJsWhiteSpace c then trimStart cs else c :: cs

/-- The characters of `s.trim()`: white space removed at both ends. -/
def trim (s : List Char) : List Char :=
  (trimStart (trimStart s).reverse).reverse

/-- The key of a country: `name.toLowerCase().trim()` (source lines 24 and 39). -/
def normalizeName (name : String) : String :=
  String.mk (trim (toLowerCase name.data))

/-! ## Data model -/

/-- An entry of the provider's country list. -/
structure Country where
  countryCode : String
  countryName : String
  deriving DecidableEq, Repr

/-- One record of a per-country response. Only `countryName` is read by the
controller; `body` stands for the remaining fields. -/
structure RawRecord where
  countryName : String
  body : String
  deriving DecidableEq, Repr

/-- A value thrown inside the controller or given as a rejection reason. -/
inductive JsError where
  | typeError
  | failure (message : String)
  deriving DecidableEq, Repr

/-- The imported constants of `configs/vars`, which the controller only reads. -/
structure Config where
  SKIPPED_COUNTRIES : List String
  EMISSIONS_REDIS_KEY : String
  REFRESH_DURATION : Int
  LAST_REFRESH_DATA_KEY : String
  deriving DecidableEq, Repr

/-! ## Plain objects -/

/-- The property names a fresh object literal inherits from `Object.prototype`;
each of them holds a truthy value (a function or an object). -/
def objectPrototypeKeys : List String :=
  ["constructor", "__defineGetter__", "__defineSetter__", "hasOwnProperty",
   "__lookupGetter__", "__lookupSetter__", "isPrototypeOf", "propertyIsEnumerable",
   "toString", "valueOf", "__proto__", "toLocaleString"]

/-- The object `dataByCountry`: its own properties in the order in which they were
first assigned. Every value is an array, hence truthy. -/
structure JsObject where
  own : List (String × List RawRecord)
  deriving DecidableEq, Repr

namespace JsObject

/-- The literal `{}` of source line 15. -/
def empty : JsObject := ⟨[]⟩

/-- The own property names, in assignment order. JavaScript lists names that are array
indices ahead of the others; the theorems below speak of membership in this list and of
the equality of whole objects only. -/
def keys (o : JsObject) : List String :=
  o.own.map Prod.fst

/-- The own property stored under `key`, if any. -/
def getOwn (o : JsObject) (key : String) : Option (List RawRecord) :=
  (o.own.find? (fun kv => kv.1 == key)).map Prod.snd

/-- Truthiness of `o[key]` for an object whose prototype is `Object.prototype`:
an own property (always an array) or an inherited one. -/
def truthyAt (o : JsObject) (key : String) : Bool :=
  (o.getOwn key).isSome || objectPrototypeKeys.contains key

/-- Replacement of the value stored under an existing key, in place. -/
def replace (key : String) (value : List RawRecord) :
    List (String × List RawRecord) → List (String × List RawRecord)
  | [] => []
  | kv :: rest => if kv.1 == key then (key, value) :: rest else kv :: replace key value rest

/-- The assignment `o[key] = value` of source line 40. An existing own property
keeps its place; a new one is appended. The name `__proto__` is not stored: the
assignment goes to the accessor inherited from `Object.prototype`, which replaces
the prototype and creates no own property. -/
def assign (o : JsObject) (key : String) (value : List RawRecord) : JsObject :=
  if key == "__proto__" then o
  else if (o.getOwn key).isSome then ⟨replace key value o.own⟩
  else ⟨o.own ++ [(key, value)]⟩

end JsObject

/-! ## Promises -/

/-- The state a promise of `fetchData` settles in, as reported by
`Promise.allSettled`: `{status: 'fulfilled', value}` or `{status: 'rejected', reason}`. -/
inductive Settled where
  | fulfilled (value : List RawRecord)
  | rejected (reason : JsError)
  deriving DecidableEq, Repr

namespace Settled

/-- The test `result.status === 'fulfilled'` of source line 34. -/
def isFulfilled : Settled → Bool
  | fulfilled _ => true
  | rejected _ => false

/-- The field `result.value` of source line 35, present on fulfilled results. -/
def value? : Settled → Option (List RawRecord)
  | fulfilled v => some v
  | rejected _ => none

end Settled

/-- One settlement observed by `Promise.allSettled`: the promise at `index` settles
and its state is stored in the result slot of the same index. A promise settles
once, so a slot already filled is left alone. -/
def settle (promises : List Settled) (slots : List (Option Settled)) (index : Nat) :
    List (Option Settled) :=
  match slots[index]?, promises[index]? with
  | some none, some state => slots.set index (some state)
  | _, _ => slots

/-- The array `Promise.allSettled(promises)` resolves to. Every result slot starts
unfilled; the promises settle in the order `settleOrder` (indices into `promises`;
a promise not listed settles after the listed ones), each filling its own slot;
when all have settled the slots are read out. -/
def allSettled (promises : List Settled) (settleOrder : List Nat) : List Settled :=
  let order := settleOrder ++ List.range promises.length
  let slots := order.foldl (settle promises) (promises.map (fun _ => none))
  slots.reduceOption

/-! ## The cache -/

/-- The values the controller stores: the ranked sequence and the time stamp. -/
inductive CacheValue (ε : Type) where
  | emissions (ranked : List ε)
  | timestamp (millis : Int)
  deriving DecidableEq, Repr

/-- The contents of the key-value store. -/
abbrev Cache (ε : Type) := List (String × CacheValue ε)

/-- Modelled from the spec: `setData` of `helpers/redis.helper`, which is not part of
the sources at hand. A key-value store: the value under `key` is overwritten, every
other key is left as it is. -/
def setData {ε : Type} (cache : Cache ε) (key : String) (value : CacheValue ε) : Cache ε :=
  (key, value) :: cache.filter (fun kv => !(kv.1 == key))

/-- Modelled from the spec: `getData` of `helpers/redis.helper`, which is not part of
the sources at hand. The value last stored under `key`, or absent. -/
def getData {ε : Type} (cache : Cache ε) (key : String) : Option (CacheValue ε) :=
  (cache.find? (fun kv => kv.1 == key)).map Prod.snd

/-! ## Collaborators and runs -/

/-- What the imported collaborators do during one run of `prepareEmissionsByCountry`.
`ε` is the type of a transformed emissions entry, owned by `transformData`. -/
structure Collaborators (ε : Type) where
  /-- The outcome of `await footprintApi.getCountries()`. -/
  getCountries : Except JsError (List Country)
  /-- The state in which the promise returned by the `n`-th call (counted from zero),
  `fetchData(countryCode)`, settles. -/
  fetchData : Nat → String → Settled
  /-- The order in which the promises of `fetchData` settle. -/
  settleOrder : List Nat
  /-- The outcome of `transformData(dataByCountry)`. -/
  transformData : JsObject → Except JsError (List ε)
  /-- The outcome of `await sortByHighestTotal(emissionsPerCountry)`. -/
  sortByHighestTotal : List ε → Except JsError (List ε)
  /-- Milliseconds elapsed on the clock between the start of the run and the
  evaluation of `Date.now()` on source line 48. -/
  elapsed : Nat

/-- A call made to a collaborator. -/
inductive Call (ε : Type) where
  | getCountries
  | fetchData (countryCode : String)
  | transformData (dataByCountry : JsObject)
  | sortByHighestTotal (emissionsPerCountry : List ε)
  | setData (key : String) (value : CacheValue ε)
  | consoleError (error : JsError)
  deriving DecidableEq, Repr

/-- The observable outcome of one run of `prepareEmissionsByCountry`. -/
structure Run (ε : Type) where
  /-- The collaborator calls, in the order in which they were made. -/
  calls : List (Call ε)
  /-- The cache after the run. -/
  cache : Cache ε
  /-- The value the returned promise resolves to; `none` is `undefined`. -/
  returned : Option (List ε)
  deriving DecidableEq, Repr

namespace Run

variable {ε : Type}

/-- The country codes `fetchData` was called with, in call order. -/
def requests (r : Run ε) : List String :=
  r.calls.filterMap (fun c => match c with
    | Call.fetchData code => some code
    | _ => none)

/-- The maps handed to `transformData`, in call order. -/
def handed (r : Run ε) : List JsObject :=
  r.calls.filterMap (fun c => match c with
    | Call.transformData m => some m
    | _ => none)

/-- The `setData` calls, in call order. -/
def writes (r : Run ε) : List (String × CacheValue ε) :=
  r.calls.filterMap (fun c => match c with
    | Call.setData k v => some (k, v)
    | _ => none)

end Run

/-! ## `prepareEmissionsByCountry` -/

/-- The guard of source line 26, for the country with normalised name `countryName`. -/
def shouldRequest (cfg : Config) (dataByCountry : JsObject) (countryName : String) : Bool :=
  !cfg.SKIPPED_COUNTRIES.contains countryName && !dataByCountry.truthyAt countryName

/-- Source lines 20 to 29: the country codes for which a request is created, in the
order of the country list. The loop reads `dataByCountry` and never writes it. -/
def requestedCodes (cfg : Config) (dataByCountry : JsObject) : List Country → List String
  | [] => []
  | country :: rest =>
    let countryName := normalizeName country.countryName
    if shouldRequest cfg dataByCountry countryName then
      country.countryCode :: requestedCodes cfg dataByCountry rest
    else
      requestedCodes cfg dataByCountry rest

/-- The array `promises` after the loop: the promise of the `n`-th request. -/
def issuedPromises (fetchData : Nat → String → Settled) (codes : List String) : List Settled :=
  (List.range codes.length).zipWith (fun n code => fetchData n code) codes

/-- Source lines 33 to 35: the values of the fulfilled results. -/
def fulfilledValues (results : List Settled) : List (List RawRecord) :=
  (results.filter Settled.isFulfilled).filterMap Settled.value?

/-- Source lines 38 to 41: every value is stored under the normalised country name of
its first element. Reading `countryName` of the missing first element of an empty
value throws a `TypeError`, which ends the loop. -/
def keyByCountryName : JsObject → List (List RawRecord) → Except JsError JsObject
  | dataByCountry, [] => .ok dataByCountry
  | dataByCountry, r :: rest =>
    match r with
    | [] => .error JsError.typeError
    | first :: _ =>
      keyByCountryName (dataByCountry.assign (normalizeName first.countryName) r) rest

/-- The handler of source lines 51 to 53: the error is logged, nothing is written and
the procedure returns `undefined`. -/
def caught {ε : Type} (calls : List (Call ε)) (cache : Cache ε) (error : JsError) : Run ε :=
  { calls := calls ++ [Call.consoleError error], cache := cache, returned := none }

/-- The procedure `prepareEmissionsByCountry`, started at time `startTime` on the
cache `cache`. The two `setData` calls are issued one after the other. -/
def prepareEmissionsByCountry {ε : Type} (cfg : Config) (env : Collaborators ε)
    (cache : Cache ε) (startTime : Int) : Run ε :=
  let dataByCountry := JsObject.empty
  match env.getCountries with
  | .error e => caught [Call.getCountries] cache e
  | .ok countries =>
    let codes := requestedCodes cfg dataByCountry countries
    let promises := issuedPromises env.fetchData codes
    let calls := Call.getCountries :: codes.map Call.fetchData
    let results := allSettled promises env.settleOrder
    let results := fulfilledValues results
    match keyByCountryName dataByCountry results with
    | .error e => caught calls cache e
    | .ok dataByCountry =>
      let calls := calls ++ [Call.transformData dataByCountry]
      match env.transformData dataByCountry with
      | .error e => caught calls cache e
      | .ok emissionsPerCountry =>
        let calls := calls ++ [Call.sortByHighestTotal emissionsPerCountry]
        match env.sortByHighestTotal emissionsPerCountry with
        | .error e => caught calls cache e
        | .ok emissionsPerCountry =>
          let now := startTime + env.elapsed
          let stored := CacheValue.emissions emissionsPerCountry
          let cache := setData cache cfg.EMISSIONS_REDIS_KEY stored
          let cache := setData cache cfg.LAST_REFRESH_DATA_KEY (CacheValue.timestamp now)
          { calls := calls ++ [Call.setData cfg.EMISSIONS_REDIS_KEY stored,
                               Call.setData cfg.LAST_REFRESH_DATA_KEY (CacheValue.timestamp now)],
            cache := cache,
            returned := some emissionsPerCountry }

/-! ## `shouldFetchOnRestart` -/

/-- A call made by `shouldFetchOnRestart`. -/
inductive SchedulerCall where
  | getData (key : String)
  | prepareEmissionsByCountry
  deriving DecidableEq, Repr

/-- The number of binary digits of `n`; `fuel` bounds the halvings. -/
def bitLengthAux : Nat → Nat → Nat
  | 0, _ => 0
  | fuel + 1, n => if n = 0 then 0 else bitLengthAux fuel (n / 2) + 1

/-- The number of binary digits of `n`. -/
def bitLength (n : Nat) : Nat :=
  bitLengthAux n n

/-- The value of the JavaScript number nearest to the integer `x`: a number holds 53
binary digits, so the digits beyond them are rounded off, to nearest and on a tie to
the even neighbour. An integer of magnitude up to `2^53` is left as it is. This is what
the subtraction of line 66 delivers for the exact difference `x`. -/
def toDouble (x : Int) : Int :=
  let a := x.natAbs
  let dropped := bitLength a - 53
  let q := a / 2 ^ dropped
  let r := a % 2 ^ dropped
  let up := decide (2 ^ dropped < 2 * r) || (2 * r == 2 ^ dropped && q % 2 == 1)
  let kept := if up then q + 1 else q
  if x < 0 then -((kept * 2 ^ dropped : Nat) : Int) else ((kept * 2 ^ dropped : Nat) : Int)

/-- The condition of source line 66. `lastFetchTime` is what `getData` resolved to:
absent (`null` or `undefined`) or a number; absent and `0` are the falsy ones. The
numbers are integers that JavaScript holds exactly; their difference is rounded to a
JavaScript number before it is compared. -/
def refreshDue (cfg : Config) (lastFetchTime : Option Int) (currentTime : Int) : Bool :=
  match lastFetchTime with
  | none => true
  | some t => t == 0 || decide (toDouble (currentTime - t) > cfg.REFRESH_DURATION)

/-- The procedure `shouldFetchOnRestart`: `getData` is what the cache answers and
`currentTime` what `Date.now()` returns on source line 63. The result lists the calls
made; `prepareEmissionsByCountry` is started and not awaited. -/
def shouldFetchOnRestart (cfg : Config) (getData : String → Option Int) (currentTime : Int) :
    List SchedulerCall :=
  let lastFetchTime := getData cfg.LAST_REFRESH_DATA_KEY
  if refreshDue cfg lastFetchTime currentTime then
    [SchedulerCall.getData cfg.LAST_REFRESH_DATA_KEY, SchedulerCall.prepareEmissionsByCountry]
  else
    [SchedulerCall.getData cfg.LAST_REFRESH_DATA_KEY]

/-- The number of times `shouldFetchOnRestart` invokes `prepareEmissionsByCountry`. -/
def invocations (calls : List SchedulerCall) : Nat :=
  calls.count SchedulerCall.prepareEmissionsByCountry

/-! ## Auxiliary notions for the proofs -/

/-- The slots hold nothing but states of the promises they belong to. -/
def SlotsOk (promises : List Settled) (slots : List (Option Settled)) : Prop :=
  ∀ i : Nat, slots[i]? = promises[i]?.map (fun _ => none) ∨ slots[i]? = promises[i]?.map some

/-- The entries of the country list for which a request is created. -/
def requestedCountries (cfg : Config) (dataByCountry : JsObject) (countries : List Country) :
    List Country :=
  countries.filter (fun c => shouldRequest cfg dataByCountry (normalizeName c.countryName))

/-! ## Sample inputs -/

/-- A configuration with one skip-listed name and a refresh duration of ten
milliseconds. -/
def sampleConfig : Config :=
  { SKIPPED_COUNTRIES := ["world"],
    EMISSIONS_REDIS_KEY := "emissions",
    REFRESH_DURATION := 10,
    LAST_REFRESH_DATA_KEY := "lastRefresh" }

/-- Collaborators for a country list `countries` and a provider `fetchData`; the
transform counts the records of every country and the sort leaves the order as it is. -/
def sampleEnv (countries : Except JsError (List Country))
    (fetchData : Nat → String → Settled) : Collaborators Nat :=
  { getCountries := countries,
    fetchData := fetchData,
    settleOrder := [1, 0],
    transformData := fun o => .ok (o.own.map (fun kv => kv.2.length)),
    sortByHighestTotal := fun l => .ok l,
    elapsed := 5 }

/-- A provider that answers every request with one record of Spain. -/
def spainProvider : Nat → String → Settled :=
  fun _ _ => Settled.fulfilled [⟨"Spain", "2019"⟩]

/-- A country list that names Spain twice, under two spellings. -/
def duplicateEnv : Collaborators Nat :=
  sampleEnv (.ok [⟨"ES", "Spain"⟩, ⟨"ES-2", " SPAIN "⟩]) spainProvider

/-- A country list in which a skip-listed entry and another entry carry one code. -/
def sharedCodeEnv : Collaborators Nat :=
  sampleEnv (.ok [⟨"X", "World"⟩, ⟨"X", "Spain"⟩]) spainProvider

/-- A provider whose answer for Spain starts with a record of the skip-listed
aggregate. -/
def foreignEchoEnv : Collaborators Nat :=
  sampleEnv (.ok [⟨"W", "World"⟩, ⟨"ES", "Spain"⟩])
    (fun _ _ => Settled.fulfilled [⟨"World", "2019"⟩, ⟨"Spain", "2019"⟩])

/-- A provider that knows the code of Spain only and answers it with a record of
Spain. -/
def echoProvider : Nat → String → Settled :=
  fun _ code =>
    if code = "ES" then Settled.fulfilled [⟨"Spain", "2019"⟩]
    else Settled.rejected (JsError.failure "404")

/-- A country list with a skip-listed entry, and a provider that echoes the requested
country. -/
def echoEnv : Collaborators Nat :=
  sampleEnv (.ok [⟨"W", "World"⟩, ⟨"ES", "Spain"⟩]) echoProvider

/-- Every request is rejected. -/
def allRejectedEnv : Collaborators Nat :=
  sampleEnv (.ok [⟨"ES", "Spain"⟩, ⟨"FR", "France"⟩])
    (fun _ _ => Settled.rejected (JsError.failure "503"))

/-- The country list cannot be fetched. -/
def noListEnv : Collaborators Nat :=
  sampleEnv (.error (JsError.failure "503")) spainProvider

/-- The transform throws. -/
def brokenTransformEnv : Collaborators Nat :=
  { echoEnv with transformData := fun _ => .error (JsError.failure "transform") }

/-- The second request is fulfilled with an empty collection. -/
def emptyResultEnv : Collaborators Nat :=
  sampleEnv (.ok [⟨"ES", "Spain"⟩, ⟨"FR", "France"⟩])
    (fun n _ => if n = 0 then Settled.fulfilled [⟨"Spain", "2019"⟩] else Settled.fulfilled [])

/-- Modelled from the spec: `transformData` of `helpers/seeds.helper`, which is not part
of the sources at hand, merges the records of every country into one summary entry, so
that it yields as many entries as the map has countries. -/
def OneEntryPerCountry {ε : Type} (transformData : JsObject → Except JsError (List ε)) : Prop :=
  ∀ (m : JsObject) (entries : List ε), transformData m = .ok entries →
    entries.length = m.keys.length

/-- Modelled from the spec: `sortByHighestTotal` of `helpers/seeds.helper`, which is not
part of the sources at hand, sorts the entries it is given, so that it yields the same
entries in another order. -/
def Reorders {ε : Type} (sortByHighestTotal : List ε → Except JsError (List ε)) : Prop :=
  ∀ (entries sorted : List ε), sortByHighestTotal entries = .ok sorted →
    sorted.Perm entries

/-- The first request is fulfilled with a record of Spain and the second is rejected. -/
def mixedEnv : Collaborators Nat :=
  sampleEnv (.ok [⟨"ES", "Spain"⟩, ⟨"FR", "France"⟩]) echoProvider

/-! # Theorems -/

/-! ## `Promise.allSettled` -/

theorem slotsOk_init (promises : List Settled) :
    SlotsOk promises (promises.map (fun _ => none)) := by
  intro i
  left
  rw [List.getElem?_map]

theorem settle_getElem? (promises : List Settled) (slots : List (Option Settled))
    (j i : Nat) :
    (settle promises slots j)[i]? = slots[i]? ∨
      (i = j ∧ slots[i]? = some none ∧ (settle promises slots j)[i]? = promises[i]?.map some) := by
  unfold settle
  split
  · rename_i state hs hp
    by_cases hij : j = i
    · subst hij
      right
      refine ⟨rfl, hs, ?_⟩
      have hlt : j < slots.length := by
        by_contra hge
        rw [List.getElem?_eq_none (Nat.le_of_not_lt hge)] at hs
        cases hs
      rw [List.getElem?_set, if_pos rfl, if_pos hlt, hp]
      rfl
    · left
      rw [List.getElem?_set_ne hij]
  · left
    rfl

theorem settle_slotsOk {promises : List Settled} {slots : List (Option Settled)}
    (h : SlotsOk promises slots) (j : Nat) : SlotsOk promises (settle promises slots j) := by
  intro i
  rcases settle_getElem? promises slots j i with e | ⟨_, _, e⟩
  · rw [e]; exact h i
  · right; exact e

theorem settle_keeps {promises : List Settled} {slots : List (Option Settled)} {i : Nat}
    (h : slots[i]? = promises[i]?.map some) (j : Nat) :
    (settle promises slots j)[i]? = promises[i]?.map some := by
  rcases settle_getElem? promises slots j i with e | ⟨_, _, e⟩
  · rw [e]; exact h
  · exact e

theorem settle_fills {promises : List Settled} {slots : List (Option Settled)}
    (h : SlotsOk promises slots) (j : Nat) :
    (settle promises slots j)[j]? = promises[j]?.map some := by
  rcases h j with e | e
  · unfold settle
    cases hp : promises[j]? with
    | none => rw [hp] at e; simpa [hp] using e
    | some state =>
      rw [hp] at e
      simp only [Option.map_some'] at e
      simp only [e]
      have hlt : j < slots.length := by
        by_contra hge
        rw [List.getElem?_eq_none (Nat.le_of_not_lt hge)] at e
        cases e
      rw [List.getElem?_set, if_pos rfl, if_pos hlt]
      rfl
  · exact settle_keeps e j

theorem foldl_settle_slotsOk {promises : List Settled} (order : List Nat) :
    ∀ {slots : List (Option Settled)}, SlotsOk promises slots →
      SlotsOk promises (order.foldl (settle promises) slots) := by
  induction order with
  | nil => intro slots h; exact h
  | cons j rest ih => intro slots h; exact ih (settle_slotsOk h j)

theorem foldl_settle_keeps {promises : List Settled} (order : List Nat) {i : Nat} :
    ∀ {slots : List (Option Settled)}, slots[i]? = promises[i]?.map some →
      (order.foldl (settle promises) slots)[i]? = promises[i]?.map some := by
  induction order with
  | nil => intro slots h; exact h
  | cons j rest ih => intro slots h; exact ih (settle_keeps h j)

theorem foldl_settle_fills {promises : List Settled} (order : List Nat) {i : Nat}
    (hi : i ∈ order) :
    ∀ {slots : List (Option Settled)}, SlotsOk promises slots →
      (order.foldl (settle promises) slots)[i]? = promises[i]?.map some := by
  induction order with
  | nil => cases hi
  | cons j rest ih =>
    intro slots h
    by_cases hij : i = j
    · subst hij
      exact foldl_settle_keeps rest (settle_fills h i)
    · have hmem : i ∈ rest := by
        rcases List.mem_cons.mp hi with e | e
        · exact absurd e hij
        · exact e
      exact ih hmem (settle_slotsOk h j)

theorem reduceOption_map_some {α : Type} (l : List α) : (l.map some).reduceOption = l := by
  induction l with
  | nil => rfl
  | cons a rest ih => simp [List.reduceOption_cons_of_some, ih]

/-- The array `Promise.allSettled` resolves to lists the states in the order of the
promises handed in, whatever the order in which they settled. -/
theorem allSettled_eq (promises : List Settled) (settleOrder : List Nat) :
    allSettled promises settleOrder = promises := by
  unfold allSettled
  simp only
  have hall : (settleOrder ++ List.range promises.length).foldl (settle promises)
      (promises.map (fun _ => none)) = promises.map some := by
    apply List.ext_getElem?
    intro i
    rw [List.getElem?_map]
    by_cases hi : i < promises.length
    · apply foldl_settle_fills _ _ (slotsOk_init promises)
      exact List.mem_append_right _ (List.mem_range.mpr hi)
    · have hok := foldl_settle_slotsOk (settleOrder ++ List.range promises.length)
        (slotsOk_init promises) i
      have hn : promises[i]? = none := List.getElem?_eq_none (Nat.le_of_not_lt hi)
      rw [hn] at hok ⊢
      simpa using hok
  rw [hall, reduceOption_map_some]

/-! ## The request loop -/

theorem requestedCodes_eq (cfg : Config) (d : JsObject) (countries : List Country) :
    requestedCodes cfg d countries
      = (requestedCountries cfg d countries).map Country.countryCode := by
  induction countries with
  | nil => rfl
  | cons c rest ih =>
    unfold requestedCountries at ih ⊢
    by_cases h : shouldRequest cfg d (normalizeName c.countryName) = true
    · simp [requestedCodes, h, ih]
    · simp [requestedCodes, h, ih]

theorem issuedPromises_getElem? (fetchData : Nat → String → Settled) (codes : List String)
    (n : Nat) : (issuedPromises fetchData codes)[n]? = codes[n]?.map (fetchData n) := by
  unfold issuedPromises
  rw [List.getElem?_zipWith]
  by_cases hn : n < codes.length
  · rw [List.getElem?_range hn, List.getElem?_eq_getElem hn]
    rfl
  · rw [List.getElem?_eq_none (l := codes) (Nat.le_of_not_lt hn)]
    cases (List.range codes.length)[n]? <;> rfl

theorem fulfilledValues_eq (results : List Settled) :
    fulfilledValues results = results.filterMap Settled.value? := by
  unfold fulfilledValues
  induction results with
  | nil => rfl
  | cons r rest ih =>
    cases r with
    | fulfilled v => simp [Settled.isFulfilled, Settled.value?, List.filter_cons, ih]
    | rejected e => simp [Settled.isFulfilled, Settled.value?, List.filter_cons, ih]

theorem mem_fulfilledValues (results : List Settled) (v : List RawRecord) :
    v ∈ fulfilledValues results ↔ Settled.fulfilled v ∈ results := by
  rw [fulfilledValues_eq, List.mem_filterMap]
  constructor
  · rintro ⟨a, ha, hv⟩
    cases a with
    | fulfilled w =>
      simp only [Settled.value?, Option.some.injEq] at hv
      subst hv
      exact ha
    | rejected e => cases hv
  · intro h
    exact ⟨_, h, rfl⟩

/-- A fulfilled value comes from a request: the `n`-th one, for some `n`. -/
theorem mem_fulfilledValues_issued (fetchData : Nat → String → Settled) (codes : List String)
    (v : List RawRecord) :
    v ∈ fulfilledValues (issuedPromises fetchData codes) ↔
      ∃ n code, codes[n]? = some code ∧ fetchData n code = Settled.fulfilled v := by
  rw [mem_fulfilledValues, List.mem_iff_getElem?]
  constructor
  · rintro ⟨n, hn⟩
    rw [issuedPromises_getElem?] at hn
    cases hc : codes[n]? with
    | none => rw [hc] at hn; cases hn
    | some code =>
      rw [hc] at hn
      simp only [Option.map_some', Option.some.injEq] at hn
      exact ⟨n, code, hc, hn⟩
  · rintro ⟨n, code, hc, hf⟩
    refine ⟨n, ?_⟩
    rw [issuedPromises_getElem?, hc]
    simp [hf]

/-! ## The calls of a run -/

theorem filterMap_comp_fetch {ε : Type} (f : Call ε → Option String)
    (hf : ∀ code, f (Call.fetchData code) = some code) (codes : List String) :
    List.filterMap (f ∘ Call.fetchData) codes = codes := by
  induction codes with
  | nil => rfl
  | cons c rest ih => simp [List.filterMap_cons, hf, ih]

/-- The ways in which a run that obtained the country list can end. -/
theorem run_cases {ε : Type} (cfg : Config) (env : Collaborators ε) (cache : Cache ε)
    (startTime : Int) (countries : List Country) (hc : env.getCountries = .ok countries) :
    (prepareEmissionsByCountry cfg env cache startTime).requests
        = requestedCodes cfg JsObject.empty countries ∧
    ((∃ e, keyByCountryName JsObject.empty (fulfilledValues (issuedPromises env.fetchData
          (requestedCodes cfg JsObject.empty countries))) = .error e ∧
        (prepareEmissionsByCountry cfg env cache startTime).handed = [] ∧
        (prepareEmissionsByCountry cfg env cache startTime).writes = [] ∧
        (prepareEmissionsByCountry cfg env cache startTime).cache = cache ∧
        (prepareEmissionsByCountry cfg env cache startTime).returned = none) ∨
     (∃ m, keyByCountryName JsObject.empty (fulfilledValues (issuedPromises env.fetchData
          (requestedCodes cfg JsObject.empty countries))) = .ok m ∧
        (prepareEmissionsByCountry cfg env cache startTime).handed = [m] ∧
        ((∃ e, env.transformData m = .error e ∧
            (prepareEmissionsByCountry cfg env cache startTime).writes = [] ∧
            (prepareEmissionsByCountry cfg env cache startTime).cache = cache ∧
            (prepareEmissionsByCountry cfg env cache startTime).returned = none) ∨
         (∃ t, env.transformData m = .ok t ∧
            ((∃ e, env.sortByHighestTotal t = .error e ∧
                (prepareEmissionsByCountry cfg env cache startTime).writes = [] ∧
                (prepareEmissionsByCountry cfg env cache startTime).cache = cache ∧
                (prepareEmissionsByCountry cfg env cache startTime).returned = none) ∨
             (∃ s, env.sortByHighestTotal t = .ok s ∧
                (prepareEmissionsByCountry cfg env cache startTime).writes
                  = [(cfg.EMISSIONS_REDIS_KEY, CacheValue.emissions s),
                     (cfg.LAST_REFRESH_DATA_KEY, CacheValue.timestamp (startTime + env.elapsed))] ∧
                (prepareEmissionsByCountry cfg env cache startTime).cache
                  = setData (setData cache cfg.EMISSIONS_REDIS_KEY (CacheValue.emissions s))
                      cfg.LAST_REFRESH_DATA_KEY (CacheValue.timestamp (startTime + env.elapsed)) ∧
                (prepareEmissionsByCountry cfg env cache startTime).returned = some s)))))) := by
  unfold prepareEmissionsByCountry
  simp only [hc, allSettled_eq]
  cases hk : keyByCountryName JsObject.empty (fulfilledValues (issuedPromises env.fetchData
      (requestedCodes cfg JsObject.empty countries))) with
  | error e =>
    simp [caught, Run.requests, Run.handed, Run.writes, List.filterMap_append]
    exact filterMap_comp_fetch _ (fun _ => rfl) _
  | ok m =>
    cases ht : env.transformData m with
    | error e =>
      simp [caught, Run.requests, Run.handed, Run.writes, List.filterMap_append, ht]
      exact filterMap_comp_fetch _ (fun _ => rfl) _
    | ok t =>
      cases hs : env.sortByHighestTotal t with
      | error e =>
        simp [caught, Run.requests, Run.handed, Run.writes, List.filterMap_append, ht, hs]
        exact filterMap_comp_fetch _ (fun _ => rfl) _
      | ok s =>
        simp [Run.requests, Run.handed, Run.writes, List.filterMap_append, ht, hs]
        exact filterMap_comp_fetch _ (fun _ => rfl) _

/-! ## Objects -/

theorem replace_keys (key : String) (value : List RawRecord)
    (own : List (String × List RawRecord)) :
    (JsObject.replace key value own).map Prod.fst = own.map Prod.fst := by
  induction own with
  | nil => rfl
  | cons kv rest ih =>
    unfold JsObject.replace
    by_cases h : (kv.1 == key) = true
    · rw [if_pos h]
      have hk : kv.1 = key := by simpa using h
      simp [hk]
    · rw [if_neg h]
      simp [ih]

theorem keys_assign (o : JsObject) (key : String) (value : List RawRecord) (k : String)
    (hk : k ∈ (o.assign key value).keys) : k ∈ o.keys ∨ k = key := by
  unfold JsObject.assign at hk
  split at hk
  · exact Or.inl hk
  · split at hk
    · left
      unfold JsObject.keys at hk ⊢
      simp only at hk
      rw [replace_keys] at hk
      exact hk
    · unfold JsObject.keys at hk ⊢
      simp only [List.map_append, List.mem_append, List.map_cons, List.map_nil,
        List.mem_singleton] at hk
      exact hk

theorem find?_replace_self (key : String) (value : List RawRecord)
    (own : List (String × List RawRecord))
    (h : (own.find? (fun kv => kv.1 == key)).isSome = true) :
    ((JsObject.replace key value own).find? (fun kv => kv.1 == key)).map Prod.snd
      = some value := by
  induction own with
  | nil => simp at h
  | cons kv rest ih =>
    unfold JsObject.replace
    by_cases hk : (kv.1 == key) = true
    · rw [if_pos hk]
      simp [List.find?_cons]
    · have hb : (kv.1 == key) = false := by simpa using hk
      rw [if_neg hk, List.find?_cons, hb]
      rw [List.find?_cons, hb] at h
      exact ih h

theorem find?_replace_other (key : String) (value : List RawRecord)
    (own : List (String × List RawRecord)) (k : String) (hne : k ≠ key) :
    ((JsObject.replace key value own).find? (fun kv => kv.1 == k)).map Prod.snd
      = (own.find? (fun kv => kv.1 == k)).map Prod.snd := by
  induction own with
  | nil => rfl
  | cons kv rest ih =>
    unfold JsObject.replace
    by_cases hk : (kv.1 == key) = true
    · rw [if_pos hk]
      have hkv : kv.1 = key := by simpa using hk
      have h1 : (key == k) = false := by simpa using fun e => hne e.symm
      have h2 : (kv.1 == k) = false := by rw [hkv]; exact h1
      rw [List.find?_cons, List.find?_cons, h2]
      simp only [h1]
    · rw [if_neg hk, List.find?_cons, List.find?_cons]
      cases hkk : (kv.1 == k) with
      | true => rfl
      | false => exact ih

theorem getOwn_assign (o : JsObject) (key : String) (value : List RawRecord) (k : String) :
    (o.assign key value).getOwn k
      = if key ≠ "__proto__" ∧ k = key then some value else o.getOwn k := by
  unfold JsObject.assign
  by_cases hp : key = "__proto__"
  · simp [hp]
  · have hp2 : (key == "__proto__") = false := by simpa using hp
    rw [hp2]
    simp only [Bool.false_eq_true, if_false]
    by_cases hkk : k = key
    · have hcond : key ≠ "__proto__" ∧ k = key := And.intro hp hkk
      rw [if_pos hcond]
      subst hkk
      by_cases hs : (o.getOwn k).isSome = true
      · rw [if_pos hs]
        unfold JsObject.getOwn at hs ⊢
        simp only
        apply find?_replace_self
        simpa using hs
      · rw [if_neg hs]
        unfold JsObject.getOwn
        simp only
        have hnone : o.own.find? (fun kv => kv.1 == k) = none := by
          unfold JsObject.getOwn at hs
          cases hf : o.own.find? (fun kv => kv.1 == k) with
          | none => rfl
          | some x => rw [hf] at hs; simp at hs
        simp [List.find?_append, hnone]
    · have hcond : ¬ (key ≠ "__proto__" ∧ k = key) := fun h => hkk h.2
      rw [if_neg hcond]
      have hb : (key == k) = false := by simpa using fun e => hkk e.symm
      by_cases hs : (o.getOwn key).isSome = true
      · rw [if_pos hs]
        unfold JsObject.getOwn
        simp only
        exact find?_replace_other key value o.own k hkk
      · rw [if_neg hs]
        unfold JsObject.getOwn
        simp only
        rw [List.find?_append]
        cases o.own.find? (fun kv => kv.1 == k) with
        | none => simp [List.find?_cons, hb]
        | some x => rfl

/-! ## Keying the values -/

theorem keyByCountryName_keys (values : List (List RawRecord)) :
    ∀ (d m : JsObject), keyByCountryName d values = .ok m → ∀ k ∈ m.keys,
      k ∈ d.keys ∨ ∃ first rest, (first :: rest) ∈ values ∧ k = normalizeName first.countryName := by
  induction values with
  | nil =>
    intro d m h k hk
    simp only [keyByCountryName, Except.ok.injEq] at h
    subst h
    exact Or.inl hk
  | cons r tail ih =>
    intro d m h k hk
    cases r with
    | nil => simp [keyByCountryName] at h
    | cons first rest =>
      simp only [keyByCountryName] at h
      rcases ih _ m h k hk with h1 | ⟨f, rs, hmem, hkey⟩
      · rcases keys_assign _ _ _ _ h1 with h2 | h2
        · exact Or.inl h2
        · exact Or.inr ⟨first, rest, List.mem_cons_self _ _, h2⟩
      · exact Or.inr ⟨f, rs, List.mem_cons_of_mem _ hmem, hkey⟩

theorem keyByCountryName_getOwn (values : List (List RawRecord)) :
    ∀ (d m : JsObject), keyByCountryName d values = .ok m → ∀ k v, m.getOwn k = some v →
      d.getOwn k = some v ∨
        ∃ first rest, v = first :: rest ∧ v ∈ values ∧ k = normalizeName first.countryName := by
  induction values with
  | nil =>
    intro d m h k v hk
    simp only [keyByCountryName, Except.ok.injEq] at h
    subst h
    exact Or.inl hk
  | cons r tail ih =>
    intro d m h k v hk
    cases r with
    | nil => simp [keyByCountryName] at h
    | cons first rest =>
      simp only [keyByCountryName] at h
      rcases ih _ m h k v hk with h1 | ⟨f, rs, hv, hmem, hkey⟩
      · rw [getOwn_assign] at h1
        split at h1
        · rename_i hcond
          simp only [Option.some.injEq] at h1
          exact Or.inr ⟨first, rest, h1.symm, by rw [← h1]; exact List.mem_cons_self _ _, hcond.2⟩
        · exact Or.inl h1
      · exact Or.inr ⟨f, rs, hv, List.mem_cons_of_mem _ hmem, hkey⟩

theorem keyByCountryName_error (values : List (List RawRecord)) (h : [] ∈ values) :
    ∀ d : JsObject, keyByCountryName d values = .error JsError.typeError := by
  induction values with
  | nil => cases h
  | cons r tail ih =>
    intro d
    cases r with
    | nil => rfl
    | cons first rest =>
      simp only [keyByCountryName]
      apply ih
      rcases List.mem_cons.mp h with e | e
      · cases e
      · exact e

theorem keyByCountryName_ok (values : List (List RawRecord)) (h : [] ∉ values) :
    ∀ d : JsObject, ∃ m, keyByCountryName d values = .ok m := by
  induction values with
  | nil => intro d; exact ⟨d, rfl⟩
  | cons r tail ih =>
    intro d
    cases r with
    | nil => exact absurd (List.mem_cons_self _ _) h
    | cons first rest =>
      simp only [keyByCountryName]
      exact ih (fun hm => h (List.mem_cons_of_mem _ hm)) _

theorem run_getCountries_error {ε : Type} (cfg : Config) (env : Collaborators ε)
    (cache : Cache ε) (startTime : Int) (e : JsError) (hc : env.getCountries = .error e) :
    prepareEmissionsByCountry cfg env cache startTime
      = caught [Call.getCountries] cache e := by
  unfold prepareEmissionsByCountry
  simp only [hc]

/-! ## The cache -/

theorem getData_setData_self {ε : Type} (cache : Cache ε) (key : String) (value : CacheValue ε) :
    getData (setData cache key value) key = some value := by
  simp [getData, setData, List.find?_cons]

theorem getData_setData_other {ε : Type} (cache : Cache ε) (key : String) (value : CacheValue ε)
    (k : String) (hne : k ≠ key) :
    getData (setData cache key value) k = getData cache k := by
  have hb : (key == k) = false := by simpa using fun e => hne e.symm
  unfold getData setData
  rw [List.find?_cons]
  simp only [hb]
  congr 1
  induction cache with
  | nil => rfl
  | cons kv rest ih =>
    by_cases h1 : kv.1 = key
    · have h2 : (kv.1 == k) = false := by rw [h1]; exact hb
      simp [List.filter_cons, h1, List.find?_cons, ih]
      rw [hb]
    · by_cases h3 : (kv.1 == k) = true
      · simp [List.filter_cons, h1, List.find?_cons, h3]
      · have h4 : (kv.1 == k) = false := by simpa using h3
        simp [List.filter_cons, h1, List.find?_cons, h4, ih]

theorem run_settleOrder {ε : Type} (cfg : Config) (env : Collaborators ε) (order : List Nat)
    (cache : Cache ε) (startTime : Int) :
    prepareEmissionsByCountry cfg { env with settleOrder := order } cache startTime
      = prepareEmissionsByCountry cfg env cache startTime := by
  unfold prepareEmissionsByCountry
  simp only [allSettled_eq]

/-! ## What the keying stores -/

theorem fulfilledValues_cons_fulfilled (v : List RawRecord) (tail : List Settled) :
    fulfilledValues (Settled.fulfilled v :: tail) = v :: fulfilledValues tail := by
  simp [fulfilledValues_eq, Settled.value?]

theorem fulfilledValues_cons_rejected (e : JsError) (tail : List Settled) :
    fulfilledValues (Settled.rejected e :: tail) = fulfilledValues tail := by
  simp [fulfilledValues_eq, Settled.value?]

/-- A name that no fulfilled result is keyed by keeps what it held before the keying. -/
theorem keyByCountryName_untouched (results : List Settled) (k : String) :
    ∀ (d m : JsObject), keyByCountryName d (fulfilledValues results) = .ok m →
      (∀ (n : Nat) (first : RawRecord) (rest : List RawRecord),
        results[n]? = some (Settled.fulfilled (first :: rest)) →
        normalizeName first.countryName ≠ k) →
      m.getOwn k = d.getOwn k := by
  induction results with
  | nil =>
    intro d m h _
    simp only [fulfilledValues, List.filter_nil, List.filterMap_nil, keyByCountryName,
      Except.ok.injEq] at h
    rw [h]
  | cons r tail ih =>
    intro d m h hno
    have htail : ∀ (n : Nat) (first : RawRecord) (rest : List RawRecord),
        tail[n]? = some (Settled.fulfilled (first :: rest)) →
        normalizeName first.countryName ≠ k := fun n first rest hn =>
      hno (n + 1) first rest (by rw [List.getElem?_cons_succ]; exact hn)
    cases r with
    | rejected e =>
      rw [fulfilledValues_cons_rejected] at h
      exact ih d m h htail
    | fulfilled v =>
      rw [fulfilledValues_cons_fulfilled] at h
      cases v with
      | nil => simp [keyByCountryName] at h
      | cons first rest =>
        simp only [keyByCountryName] at h
        rw [ih _ m h htail, getOwn_assign]
        have hne : normalizeName first.countryName ≠ k :=
          hno 0 first rest (by rw [List.getElem?_cons_zero])
        have hcond : ¬ (normalizeName first.countryName ≠ "__proto__" ∧
            k = normalizeName first.countryName) := fun hc => hne hc.2.symm
        rw [if_neg hcond]

/-- The value of a fulfilled result is stored under the normalised name of its first
record, unless a later fulfilled result is keyed by the same name. -/
theorem keyByCountryName_stores (results : List Settled) :
    ∀ (d m : JsObject) (n : Nat) (first : RawRecord) (rest : List RawRecord),
      keyByCountryName d (fulfilledValues results) = .ok m →
      results[n]? = some (Settled.fulfilled (first :: rest)) →
      normalizeName first.countryName ≠ "__proto__" →
      (∀ (later : Nat) (first2 : RawRecord) (rest2 : List RawRecord), n < later →
        results[later]? = some (Settled.fulfilled (first2 :: rest2)) →
        normalizeName first2.countryName ≠ normalizeName first.countryName) →
      m.getOwn (normalizeName first.countryName) = some (first :: rest) := by
  induction results with
  | nil =>
    intro d m n first rest _ hn
    simp at hn
  | cons r tail ih =>
    intro d m n first rest h hn hproto hlast
    cases n with
    | zero =>
      rw [List.getElem?_cons_zero, Option.some.injEq] at hn
      subst hn
      rw [fulfilledValues_cons_fulfilled] at h
      simp only [keyByCountryName] at h
      have htail : ∀ (j : Nat) (first2 : RawRecord) (rest2 : List RawRecord),
          tail[j]? = some (Settled.fulfilled (first2 :: rest2)) →
          normalizeName first2.countryName ≠ normalizeName first.countryName :=
        fun j first2 rest2 hj =>
          hlast (j + 1) first2 rest2 (Nat.succ_pos j)
            (by rw [List.getElem?_cons_succ]; exact hj)
      rw [keyByCountryName_untouched tail _ _ m h htail, getOwn_assign]
      have hcond : normalizeName first.countryName ≠ "__proto__" ∧
          normalizeName first.countryName = normalizeName first.countryName :=
        And.intro hproto rfl
      rw [if_pos hcond]
    | succ n =>
      rw [List.getElem?_cons_succ] at hn
      have htail : ∀ (later : Nat) (first2 : RawRecord) (rest2 : List RawRecord), n < later →
          tail[later]? = some (Settled.fulfilled (first2 :: rest2)) →
          normalizeName first2.countryName ≠ normalizeName first.countryName :=
        fun later first2 rest2 hlt hj =>
          hlast (later + 1) first2 rest2 (Nat.succ_lt_succ hlt)
            (by rw [List.getElem?_cons_succ]; exact hj)
      cases r with
      | rejected e =>
        rw [fulfilledValues_cons_rejected] at h
        exact ih d m n first rest h hn hproto htail
      | fulfilled v =>
        rw [fulfilledValues_cons_fulfilled] at h
        cases v with
        | nil => simp [keyByCountryName] at h
        | cons f rs =>
          simp only [keyByCountryName] at h
          exact ih _ m n first rest h hn hproto htail

/-- A name that some value is keyed by is a property of the map after the keying. -/
theorem keyByCountryName_present (values : List (List RawRecord)) (k : String)
    (hk : k ≠ "__proto__") :
    ∀ (d m : JsObject), keyByCountryName d values = .ok m →
      ((d.getOwn k).isSome = true ∨ ∃ first rest, (first :: rest) ∈ values ∧
        normalizeName first.countryName = k) →
      (m.getOwn k).isSome = true := by
  induction values with
  | nil =>
    intro d m h hsrc
    simp only [keyByCountryName, Except.ok.injEq] at h
    subst h
    rcases hsrc with h0 | ⟨_, _, hmem, _⟩
    · exact h0
    · cases hmem
  | cons r tail ih =>
    intro d m h hsrc
    cases r with
    | nil => simp [keyByCountryName] at h
    | cons f rs =>
      simp only [keyByCountryName] at h
      apply ih _ m h
      rcases hsrc with h0 | ⟨first, rest, hmem, hkey⟩
      · left
        rw [getOwn_assign]
        split
        · rfl
        · exact h0
      · rcases List.mem_cons.mp hmem with e | e
        · left
          simp only [List.cons.injEq] at e
          obtain ⟨hf, _⟩ := e
          subst hf
          rw [getOwn_assign]
          have hcond : normalizeName first.countryName ≠ "__proto__" ∧
              k = normalizeName first.countryName :=
            And.intro (by rw [hkey]; exact hk) hkey.symm
          rw [if_pos hcond]
          rfl
        · right
          exact ⟨first, rest, e, hkey⟩

theorem issuedPromises_fulfilled (fetchData : Nat → String → Settled) (codes : List String)
    (n : Nat) (v : List RawRecord) :
    (issuedPromises fetchData codes)[n]? = some (Settled.fulfilled v) ↔
      ∃ code, codes[n]? = some code ∧ fetchData n code = Settled.fulfilled v := by
  rw [issuedPromises_getElem?]
  cases hc : codes[n]? with
  | none => simp
  | some code => simp

/-! ## The claims -/

theorem mem_requestedCountries (cfg : Config) (countries : List Country) (c : Country)
    (h : c ∈ requestedCountries cfg JsObject.empty countries) :
    c ∈ countries ∧ normalizeName c.countryName ∉ cfg.SKIPPED_COUNTRIES := by
  unfold requestedCountries at h
  rw [List.mem_filter] at h
  refine ⟨h.1, ?_⟩
  have h2 := h.2
  unfold shouldRequest at h2
  simp only [Bool.and_eq_true, Bool.not_eq_true'] at h2
  intro hmem
  have : cfg.SKIPPED_COUNTRIES.contains (normalizeName c.countryName) = true := by
    simpa using hmem
  rw [this] at h2
  exact Bool.noConfusion h2.1

/-- C1: a country list that names one country twice, as `Spain` and as ` SPAIN `. Both
entries have the normalised name `spain`, and `fetchData` is called for each of them:
the guard of line 26 reads `dataByCountry` while it is still empty. -/
theorem C1_duplicate_name_is_requested_twice :
    normalizeName "Spain" = normalizeName " SPAIN " ∧
    (prepareEmissionsByCountry sampleConfig duplicateEnv [] 0).requests = ["ES", "ES-2"] := by
  decide

/-- C2, as stated, fails twice. A code shared by a skip-listed entry and another entry is
requested; and a fulfilled value whose first record names a skip-listed country is stored
under the skip-listed name. -/
theorem C2_counterexample :
    (normalizeName "World" ∈ sampleConfig.SKIPPED_COUNTRIES ∧
      "X" ∈ (prepareEmissionsByCountry sampleConfig sharedCodeEnv [] 0).requests) ∧
    (∃ m ∈ (prepareEmissionsByCountry sampleConfig foreignEchoEnv [] 0).handed,
      ∃ k ∈ m.keys, k ∈ sampleConfig.SKIPPED_COUNTRIES) := by
  decide

/-- C2 (amended): every request of a run carries the country code of an entry of the
country list whose normalised name is not skip-listed. When the provider echoes, that
is, when a fulfilled value for the code of an entry starts with a record of that
entry's country, no key of the map handed to `transformData` is skip-listed. -/
theorem C2_skipped_entries_are_not_requested {ε : Type} (cfg : Config)
    (env : Collaborators ε) (cache : Cache ε) (startTime : Int) (countries : List Country)
    (hc : env.getCountries = .ok countries) :
    (∀ code ∈ (prepareEmissionsByCountry cfg env cache startTime).requests,
      ∃ c ∈ countries, c.countryCode = code ∧
        normalizeName c.countryName ∉ cfg.SKIPPED_COUNTRIES) ∧
    ((∀ (n : Nat) (c : Country) (first : RawRecord) (rest : List RawRecord),
          c ∈ countries →
          env.fetchData n c.countryCode = Settled.fulfilled (first :: rest) →
          normalizeName first.countryName = normalizeName c.countryName) →
      ∀ m ∈ (prepareEmissionsByCountry cfg env cache startTime).handed,
        ∀ k ∈ m.keys, k ∉ cfg.SKIPPED_COUNTRIES) := by
  obtain ⟨hreq, hrest⟩ := run_cases cfg env cache startTime countries hc
  have hcodes : ∀ code ∈ requestedCodes cfg JsObject.empty countries,
      ∃ c ∈ countries, c.countryCode = code ∧
        normalizeName c.countryName ∉ cfg.SKIPPED_COUNTRIES := by
    intro code hcode
    rw [requestedCodes_eq, List.mem_map] at hcode
    obtain ⟨c, hmem, hcc⟩ := hcode
    have hkept := mem_requestedCountries cfg countries c hmem
    exact ⟨c, hkept.1, hcc, hkept.2⟩
  refine ⟨by rw [hreq]; exact hcodes, ?_⟩
  intro hecho m hm k hk
  rcases hrest with ⟨_, _, hh, _⟩ | ⟨m', hkey, hh, _⟩
  · rw [hh] at hm; cases hm
  · rw [hh, List.mem_singleton] at hm
    subst hm
    rcases keyByCountryName_keys _ _ _ hkey k hk with h0 | ⟨first, rest, hmem, hkn⟩
    · cases h0
    · rw [mem_fulfilledValues_issued] at hmem
      obtain ⟨n, code, hcode, hf⟩ := hmem
      obtain ⟨c, hcmem, hcc, hskip⟩ :=
        hcodes code (List.mem_iff_getElem?.mpr ⟨n, hcode⟩)
      subst hcc
      rw [hkn, hecho n c first rest hcmem hf]
      exact hskip

/-- C2 (amended), at a country list with a skip-listed entry and an echoing provider. -/
theorem C2_skipped_entries_are_not_requested_witness :
    echoEnv.getCountries = .ok [⟨"W", "World"⟩, ⟨"ES", "Spain"⟩] ∧
    (prepareEmissionsByCountry sampleConfig echoEnv [] 0).requests = ["ES"] ∧
    (prepareEmissionsByCountry sampleConfig echoEnv [] 0).handed.map JsObject.keys
      = [["spain"]] ∧
    ∀ m ∈ (prepareEmissionsByCountry sampleConfig echoEnv [] 0).handed,
      ∀ k ∈ m.keys, k ∉ sampleConfig.SKIPPED_COUNTRIES := by
  have h := C2_skipped_entries_are_not_requested sampleConfig echoEnv [] 0
    [⟨"W", "World"⟩, ⟨"ES", "Spain"⟩] rfl
  refine ⟨rfl, by decide, by decide, h.2 ?_⟩
  intro n c first rest hmem hf
  simp only [List.mem_cons, List.mem_singleton, List.not_mem_nil, or_false] at hmem
  rcases hmem with hw | hes
  · subst hw
    have hrej : echoEnv.fetchData n "W" = Settled.rejected (JsError.failure "404") := rfl
    rw [hrej] at hf
    cases hf
  · subst hes
    have hfirst : first = ⟨"Spain", "2019"⟩ := by
      have hval : Settled.fulfilled [(⟨"Spain", "2019"⟩ : RawRecord)]
          = Settled.fulfilled (first :: rest) := hf
      simp only [Settled.fulfilled.injEq, List.cons.injEq] at hval
      exact hval.1.symm
    subst hfirst
    decide

/-- C3: for a run that obtained the country list, (1) a map handed to `transformData`
is the result of keying, in request order, the values of the fulfilled requests and
nothing else. Each of its entries holds the value of a fulfilled request under the
normalised country name of that value's first record. Conversely the normalised name of
the first record of every fulfilled value is a key of the map, and the map holds that
value under it unless a later fulfilled value has the same name (the name `__proto__`
apart, which an assignment does not store). (2) Rejected requests never end the run:
unless some request is fulfilled with an empty value, `transformData` is called.
(3) When every request is rejected the map handed over is empty and the run returns the
sorted transform of the empty map, `undefined` only if a collaborator throws; with a
transform that yields one entry per country and a sort that reorders, neither of them
throwing on the empty map, the run returns the empty sequence. -/
theorem C3_map_is_built_from_fulfilled_results {ε : Type} (cfg : Config)
    (env : Collaborators ε) (cache : Cache ε) (startTime : Int) (countries : List Country)
    (hc : env.getCountries = .ok countries) :
    (∀ m ∈ (prepareEmissionsByCountry cfg env cache startTime).handed,
      keyByCountryName JsObject.empty
          ((issuedPromises env.fetchData
            (prepareEmissionsByCountry cfg env cache startTime).requests).filterMap
              Settled.value?) = .ok m ∧
      (∀ (k : String) (v : List RawRecord), m.getOwn k = some v →
        ∃ (n : Nat) (code : String) (first : RawRecord) (rest : List RawRecord),
          (prepareEmissionsByCountry cfg env cache startTime).requests[n]? = some code ∧
          env.fetchData n code = Settled.fulfilled v ∧
          v = first :: rest ∧ k = normalizeName first.countryName) ∧
      (∀ (n : Nat) (code : String) (first : RawRecord) (rest : List RawRecord),
        (prepareEmissionsByCountry cfg env cache startTime).requests[n]? = some code →
        env.fetchData n code = Settled.fulfilled (first :: rest) →
        normalizeName first.countryName ≠ "__proto__" →
        (m.getOwn (normalizeName first.countryName)).isSome = true ∧
        ((∀ (later : Nat) (code2 : String) (first2 : RawRecord) (rest2 : List RawRecord),
            n < later →
            (prepareEmissionsByCountry cfg env cache startTime).requests[later]?
              = some code2 →
            env.fetchData later code2 = Settled.fulfilled (first2 :: rest2) →
            normalizeName first2.countryName ≠ normalizeName first.countryName) →
          m.getOwn (normalizeName first.countryName) = some (first :: rest)))) ∧
    ((∀ (n : Nat) (code : String),
          (prepareEmissionsByCountry cfg env cache startTime).requests[n]? = some code →
          env.fetchData n code ≠ Settled.fulfilled []) →
      ∃ m, (prepareEmissionsByCountry cfg env cache startTime).handed = [m]) ∧
    ((∀ (n : Nat) (code : String),
          (prepareEmissionsByCountry cfg env cache startTime).requests[n]? = some code →
          ∃ e, env.fetchData n code = Settled.rejected e) →
      (prepareEmissionsByCountry cfg env cache startTime).handed = [JsObject.empty] ∧
      (prepareEmissionsByCountry cfg env cache startTime).returned
        = (env.transformData JsObject.empty >>= env.sortByHighestTotal).toOption ∧
      (OneEntryPerCountry env.transformData → Reorders env.sortByHighestTotal →
        (∃ (t s : List ε), env.transformData JsObject.empty = .ok t ∧
          env.sortByHighestTotal t = .ok s) →
        (prepareEmissionsByCountry cfg env cache startTime).returned = some [])) := by
  obtain ⟨hreq, hrest⟩ := run_cases cfg env cache startTime countries hc
  rw [hreq]
  refine ⟨?_, ?_, ?_⟩
  · intro m hm
    rcases hrest with ⟨_, _, hh, _⟩ | ⟨m', hkey, hh, _⟩
    · rw [hh] at hm; cases hm
    · rw [hh, List.mem_singleton] at hm
      subst hm
      refine ⟨by rw [← fulfilledValues_eq]; exact hkey, ?_, ?_⟩
      · intro k v hkv
        rcases keyByCountryName_getOwn _ _ _ hkey k v hkv with
          h0 | ⟨first, rest, hv, hmem, hk⟩
        · cases h0
        · rw [mem_fulfilledValues_issued] at hmem
          obtain ⟨n, code, hcode, hf⟩ := hmem
          exact ⟨n, code, first, rest, hcode, hf, hv, hk⟩
      · intro n code first rest hcode hf hproto
        constructor
        · apply keyByCountryName_present _ _ hproto _ _ hkey
          right
          refine ⟨first, rest, ?_, rfl⟩
          rw [mem_fulfilledValues_issued]
          exact ⟨n, code, hcode, hf⟩
        · intro hlast
          apply keyByCountryName_stores _ _ _ n first rest hkey
          · rw [issuedPromises_fulfilled]
            exact ⟨code, hcode, hf⟩
          · exact hproto
          · intro later first2 rest2 hlt hlater
            rw [issuedPromises_fulfilled] at hlater
            obtain ⟨code2, hcode2, hf2⟩ := hlater
            exact hlast later code2 first2 rest2 hlt hcode2 hf2
  · intro hne
    rcases hrest with ⟨e, hkey, _⟩ | ⟨m', _, hh, _⟩
    · exfalso
      have hnot : ([] : List RawRecord) ∉ fulfilledValues (issuedPromises env.fetchData
          (requestedCodes cfg JsObject.empty countries)) := by
        intro hmem
        rw [mem_fulfilledValues_issued] at hmem
        obtain ⟨n, code, hcode, hf⟩ := hmem
        exact hne n code hcode hf
      obtain ⟨m, hm⟩ := keyByCountryName_ok _ hnot JsObject.empty
      rw [hm] at hkey
      cases hkey
    · exact ⟨m', hh⟩
  · intro hall
    have hvals : fulfilledValues (issuedPromises env.fetchData
        (requestedCodes cfg JsObject.empty countries)) = [] := by
      apply List.eq_nil_iff_forall_not_mem.mpr
      intro v hmem
      rw [mem_fulfilledValues_issued] at hmem
      obtain ⟨n, code, hcode, hf⟩ := hmem
      obtain ⟨e, he⟩ := hall n code hcode
      rw [he] at hf
      cases hf
    rw [hvals] at hrest
    rcases hrest with ⟨e, hkey, _⟩ | ⟨m', hkey, hh, hend⟩
    · cases hkey
    · simp only [keyByCountryName, Except.ok.injEq] at hkey
      subst hkey
      have hexact : (prepareEmissionsByCountry cfg env cache startTime).returned
          = (env.transformData JsObject.empty >>= env.sortByHighestTotal).toOption := by
        rcases hend with ⟨e, hte, _, _, hret⟩ | ⟨t, ht, hend⟩
        · rw [hret, hte]; rfl
        · rcases hend with ⟨e, hse, _, _, hret⟩ | ⟨s, hs, _, _, hret⟩
          · rw [hret, ht]
            show none = (env.sortByHighestTotal t).toOption
            rw [hse]; rfl
          · rw [hret, ht]
            show some s = (env.sortByHighestTotal t).toOption
            rw [hs]; rfl
      refine ⟨hh, hexact, ?_⟩
      rintro hone hperm ⟨t, s, ht, hs⟩
      have ht0 : t = [] := List.length_eq_zero.mp (hone _ _ ht)
      subst ht0
      have hs0 : s = [] := List.Perm.eq_nil (hperm _ _ hs)
      subst hs0
      rw [hexact, ht]
      show (env.sortByHighestTotal []).toOption = some []
      rw [hs]; rfl

/-- C3, at two runs. In the first the request for Spain is fulfilled and the request for
France is rejected: the map handed over holds the records of Spain under `spain` and
nothing else. In the second every request is rejected: the map handed over is empty and
the run returns the empty sequence. -/
theorem C3_map_is_built_from_fulfilled_results_witness :
    ((prepareEmissionsByCountry sampleConfig mixedEnv [] 0).requests = ["ES", "FR"] ∧
      (prepareEmissionsByCountry sampleConfig mixedEnv [] 0).handed
        = [⟨[("spain", [⟨"Spain", "2019"⟩])]⟩] ∧
      ∀ m ∈ (prepareEmissionsByCountry sampleConfig mixedEnv [] 0).handed,
        m.getOwn (normalizeName "Spain") = some [⟨"Spain", "2019"⟩]) ∧
    ((prepareEmissionsByCountry sampleConfig allRejectedEnv [] 0).handed = [JsObject.empty] ∧
      (prepareEmissionsByCountry sampleConfig allRejectedEnv [] 0).returned = some []) := by
  have hmixed := (C3_map_is_built_from_fulfilled_results sampleConfig mixedEnv [] 0
    [⟨"ES", "Spain"⟩, ⟨"FR", "France"⟩] rfl).1
  have hrejected := (C3_map_is_built_from_fulfilled_results sampleConfig allRejectedEnv [] 0
    [⟨"ES", "Spain"⟩, ⟨"FR", "France"⟩] rfl).2.2 (fun _ _ _ => ⟨_, rfl⟩)
  have hreq : (prepareEmissionsByCountry sampleConfig mixedEnv [] 0).requests
      = ["ES", "FR"] := by decide
  refine ⟨⟨hreq, by decide, ?_⟩, hrejected.1, hrejected.2.2 ?_ ?_ ⟨[], [], rfl, rfl⟩⟩
  · intro m hm
    refine ((hmixed m hm).2.2 0 "ES" ⟨"Spain", "2019"⟩ [] (by decide) rfl (by decide)).2 ?_
    intro later code2 first2 rest2 hlt hcode2 hf2
    rw [hreq] at hcode2
    cases later with
    | zero => exact absurd hlt (Nat.lt_irrefl 0)
    | succ j =>
      cases j with
      | zero =>
        simp only [List.getElem?_cons_succ, List.getElem?_cons_zero,
          Option.some.injEq] at hcode2
        subst hcode2
        have hrej : mixedEnv.fetchData 1 "FR" = Settled.rejected (JsError.failure "404") := rfl
        rw [hrej] at hf2
        cases hf2
      | succ i => simp at hcode2
  · intro m entries h
    simp only [allRejectedEnv, sampleEnv, Except.ok.injEq] at h
    rw [← h]
    simp [JsObject.keys]
  · intro entries sorted h
    simp only [allRejectedEnv, sampleEnv, Except.ok.injEq] at h
    rw [← h]

/-- C4: when `getCountries` fails, or `transformData` fails on the map it is handed, the
run returns `undefined`, calls `setData` not once and leaves the cache as it was. -/
theorem C4_failed_run_returns_undefined_and_writes_nothing {ε : Type} (cfg : Config)
    (env : Collaborators ε) (cache : Cache ε) (startTime : Int)
    (h : (∃ e, env.getCountries = .error e) ∨
      ∃ m e, m ∈ (prepareEmissionsByCountry cfg env cache startTime).handed ∧
        env.transformData m = .error e) :
    (prepareEmissionsByCountry cfg env cache startTime).returned = none ∧
    (prepareEmissionsByCountry cfg env cache startTime).writes = [] ∧
    (prepareEmissionsByCountry cfg env cache startTime).cache = cache := by
  cases hc : env.getCountries with
  | error e =>
    rw [run_getCountries_error cfg env cache startTime e hc]
    exact ⟨rfl, rfl, rfl⟩
  | ok countries =>
    obtain ⟨_, hrest⟩ := run_cases cfg env cache startTime countries hc
    rcases h with ⟨e, he⟩ | ⟨m, e, hm, hte⟩
    · rw [hc] at he; cases he
    · rcases hrest with ⟨_, _, hh, hw, hcache, hret⟩ | ⟨m', _, hh, hend⟩
      · exact ⟨hret, hw, hcache⟩
      · rw [hh, List.mem_singleton] at hm
        subst hm
        rcases hend with ⟨_, _, hw, hcache, hret⟩ | ⟨t, ht, _⟩
        · exact ⟨hret, hw, hcache⟩
        · rw [hte] at ht; cases ht

/-- C4, at a run whose country list cannot be fetched and at a run whose transform
throws; the cache holds an earlier snapshot. -/
theorem C4_failed_run_returns_undefined_and_writes_nothing_witness :
    ((prepareEmissionsByCountry sampleConfig noListEnv
        [("emissions", CacheValue.emissions [7])] 0).returned = none ∧
      (prepareEmissionsByCountry sampleConfig noListEnv
        [("emissions", CacheValue.emissions [7])] 0).writes = [] ∧
      (prepareEmissionsByCountry sampleConfig noListEnv
        [("emissions", CacheValue.emissions [7])] 0).cache
          = [("emissions", CacheValue.emissions [7])]) ∧
    ((prepareEmissionsByCountry sampleConfig brokenTransformEnv
        [("emissions", CacheValue.emissions [7])] 0).returned = none ∧
      (prepareEmissionsByCountry sampleConfig brokenTransformEnv
        [("emissions", CacheValue.emissions [7])] 0).writes = [] ∧
      (prepareEmissionsByCountry sampleConfig brokenTransformEnv
        [("emissions", CacheValue.emissions [7])] 0).cache
          = [("emissions", CacheValue.emissions [7])]) :=
  ⟨C4_failed_run_returns_undefined_and_writes_nothing sampleConfig noListEnv _ 0
      (Or.inl ⟨_, rfl⟩),
   C4_failed_run_returns_undefined_and_writes_nothing sampleConfig brokenTransformEnv _ 0
      (Or.inr ⟨⟨[("spain", [⟨"Spain", "2019"⟩])]⟩, JsError.failure "transform",
        by decide, rfl⟩)⟩

/-- C5: when the two cache keys differ and a run returns a sequence, the cache it
leaves behind answers `getData(EMISSIONS_REDIS_KEY)` with that sequence and
`getData(LAST_REFRESH_DATA_KEY)` with a time stamp that is not earlier than the start
of the run. -/
theorem C5_cache_round_trip {ε : Type} (cfg : Config) (env : Collaborators ε)
    (cache : Cache ε) (startTime : Int) (ranked : List ε)
    (hkeys : cfg.EMISSIONS_REDIS_KEY ≠ cfg.LAST_REFRESH_DATA_KEY)
    (hret : (prepareEmissionsByCountry cfg env cache startTime).returned = some ranked) :
    getData (prepareEmissionsByCountry cfg env cache startTime).cache cfg.EMISSIONS_REDIS_KEY
        = some (CacheValue.emissions ranked) ∧
    ∃ t : Int,
      getData (prepareEmissionsByCountry cfg env cache startTime).cache
          cfg.LAST_REFRESH_DATA_KEY = some (CacheValue.timestamp t) ∧
      startTime ≤ t := by
  cases hc : env.getCountries with
  | error e =>
    rw [run_getCountries_error cfg env cache startTime e hc] at hret
    cases hret
  | ok countries =>
    obtain ⟨_, hrest⟩ := run_cases cfg env cache startTime countries hc
    rcases hrest with ⟨_, _, _, _, _, hn⟩ | ⟨m, _, _, hend⟩
    · rw [hn] at hret; cases hret
    · rcases hend with ⟨_, _, _, _, hn⟩ | ⟨t, _, hend⟩
      · rw [hn] at hret; cases hret
      · rcases hend with ⟨_, _, _, _, hn⟩ | ⟨s, _, _, hcache, hs⟩
        · rw [hn] at hret; cases hret
        · rw [hs] at hret
          simp only [Option.some.injEq] at hret
          subst hret
          rw [hcache]
          refine ⟨?_, startTime + env.elapsed, getData_setData_self _ _ _, ?_⟩
          · rw [getData_setData_other _ _ _ _ hkeys, getData_setData_self]
          · omega

/-- C5, at a run that succeeds on a cache holding an earlier snapshot. -/
theorem C5_cache_round_trip_witness :
    getData (prepareEmissionsByCountry sampleConfig echoEnv
        [("emissions", CacheValue.emissions [7])] 100).cache sampleConfig.EMISSIONS_REDIS_KEY
        = some (CacheValue.emissions [1]) ∧
    ∃ t : Int,
      getData (prepareEmissionsByCountry sampleConfig echoEnv
          [("emissions", CacheValue.emissions [7])] 100).cache
          sampleConfig.LAST_REFRESH_DATA_KEY = some (CacheValue.timestamp t) ∧
      100 ≤ t :=
  C5_cache_round_trip sampleConfig echoEnv [("emissions", CacheValue.emissions [7])] 100 [1]
    (by decide) (by decide)

/-- C6: with the time stamp `0` in the cache and a refresh duration of ten milliseconds,
`shouldFetchOnRestart` starts the refresh at time `0 + 10 - 1`, one millisecond before
it is due: line 66 takes the stamp `0` for an absent one. With the stamp `1` the same
procedure starts no refresh at time `1 + 10 - 1` and starts one at time `1 + 10 + 1`. -/
theorem C6_zero_timestamp_refreshes_early :
    invocations (shouldFetchOnRestart sampleConfig (fun _ => some 0)
      (0 + sampleConfig.REFRESH_DURATION - 1)) = 1 ∧
    invocations (shouldFetchOnRestart sampleConfig (fun _ => some 1)
      (1 + sampleConfig.REFRESH_DURATION - 1)) = 0 ∧
    invocations (shouldFetchOnRestart sampleConfig (fun _ => some 1)
      (1 + sampleConfig.REFRESH_DURATION + 1)) = 1 := by
  decide

/-- C7: when the cache holds no time stamp, `prepareEmissionsByCountry` is invoked
exactly once, at every current time and for every refresh duration. -/
theorem C7_absent_timestamp_triggers_refresh (cfg : Config) (getData : String → Option Int)
    (currentTime : Int) (hget : getData cfg.LAST_REFRESH_DATA_KEY = none) :
    invocations (shouldFetchOnRestart cfg getData currentTime) = 1 := by
  simp [shouldFetchOnRestart, refreshDue, hget, invocations]

/-- C7, at an empty cache and the current time `3`. -/
theorem C7_absent_timestamp_triggers_refresh_witness :
    invocations (shouldFetchOnRestart sampleConfig (fun _ => none) 3) = 1 :=
  C7_absent_timestamp_triggers_refresh sampleConfig (fun _ => none) 3 rfl

/-- C8: a run either calls `setData` not at all and leaves the cache as it was, or calls
it exactly twice, first for `EMISSIONS_REDIS_KEY` and then for `LAST_REFRESH_DATA_KEY`,
and leaves a cache that holds both new values; every other key keeps its value. -/
theorem C8_both_keys_or_none {ε : Type} (cfg : Config) (env : Collaborators ε)
    (cache : Cache ε) (startTime : Int) :
    (((prepareEmissionsByCountry cfg env cache startTime).writes = [] ∧
        (prepareEmissionsByCountry cfg env cache startTime).cache = cache) ∨
      ∃ (ranked : List ε) (t : Int),
        (prepareEmissionsByCountry cfg env cache startTime).writes
          = [(cfg.EMISSIONS_REDIS_KEY, CacheValue.emissions ranked),
             (cfg.LAST_REFRESH_DATA_KEY, CacheValue.timestamp t)] ∧
        (prepareEmissionsByCountry cfg env cache startTime).cache
          = setData (setData cache cfg.EMISSIONS_REDIS_KEY (CacheValue.emissions ranked))
              cfg.LAST_REFRESH_DATA_KEY (CacheValue.timestamp t) ∧
        getData (prepareEmissionsByCountry cfg env cache startTime).cache
          cfg.LAST_REFRESH_DATA_KEY = some (CacheValue.timestamp t) ∧
        (cfg.EMISSIONS_REDIS_KEY ≠ cfg.LAST_REFRESH_DATA_KEY →
          getData (prepareEmissionsByCountry cfg env cache startTime).cache
            cfg.EMISSIONS_REDIS_KEY = some (CacheValue.emissions ranked))) ∧
    ∀ k : String, k ≠ cfg.EMISSIONS_REDIS_KEY → k ≠ cfg.LAST_REFRESH_DATA_KEY →
      getData (prepareEmissionsByCountry cfg env cache startTime).cache k = getData cache k := by
  cases hc : env.getCountries with
  | error e =>
    rw [run_getCountries_error cfg env cache startTime e hc]
    exact ⟨Or.inl ⟨rfl, rfl⟩, fun _ _ _ => rfl⟩
  | ok countries =>
    obtain ⟨_, hrest⟩ := run_cases cfg env cache startTime countries hc
    rcases hrest with ⟨_, _, _, hw, hcache, _⟩ | ⟨m, _, _, hend⟩
    · exact ⟨Or.inl ⟨hw, hcache⟩, fun _ _ _ => by rw [hcache]⟩
    · rcases hend with ⟨_, _, hw, hcache, _⟩ | ⟨t, _, hend⟩
      · exact ⟨Or.inl ⟨hw, hcache⟩, fun _ _ _ => by rw [hcache]⟩
      · rcases hend with ⟨_, _, hw, hcache, _⟩ | ⟨s, _, hw, hcache, _⟩
        · exact ⟨Or.inl ⟨hw, hcache⟩, fun _ _ _ => by rw [hcache]⟩
        · refine ⟨Or.inr ⟨s, startTime + env.elapsed, hw, hcache, ?_, ?_⟩, ?_⟩
          · rw [hcache, getData_setData_self]
          · intro hne
            rw [hcache, getData_setData_other _ _ _ _ hne, getData_setData_self]
          · intro k h1 h2
            rw [hcache, getData_setData_other _ _ _ _ h2, getData_setData_other _ _ _ _ h1]

/-- C9, as stated, fails: no configuration, collaborators and pair of settlement orders
make two runs hand maps with differently ordered keys to `transformData`. -/
theorem C9_counterexample :
    ¬ ∃ (cfg : Config) (env : Collaborators Nat) (first second : List Nat)
        (cache : Cache Nat) (startTime : Int),
      (prepareEmissionsByCountry cfg { env with settleOrder := first } cache
          startTime).handed.map JsObject.keys
        ≠ (prepareEmissionsByCountry cfg { env with settleOrder := second } cache
          startTime).handed.map JsObject.keys := by
  rintro ⟨cfg, env, first, second, cache, startTime, hne⟩
  apply hne
  rw [run_settleOrder cfg env first, run_settleOrder cfg env second]

/-- C9 (amended): `Promise.allSettled` lists the outcomes in the order of the promises
handed in, whatever the order in which they settle; two runs that differ in nothing but
the settlement order make the same calls, the map handed to `transformData` included,
leave the same cache and return the same value. -/
theorem C9_results_are_in_request_order {ε : Type} (cfg : Config) (env : Collaborators ε)
    (first second : List Nat) (cache : Cache ε) (startTime : Int) :
    (∀ promises : List Settled,
      allSettled promises first = promises ∧ allSettled promises second = promises) ∧
    prepareEmissionsByCountry cfg { env with settleOrder := first } cache startTime
      = prepareEmissionsByCountry cfg { env with settleOrder := second } cache startTime := by
  refine ⟨fun promises => ⟨allSettled_eq _ _, allSettled_eq _ _⟩, ?_⟩
  rw [run_settleOrder cfg env first, run_settleOrder cfg env second]

/-- C10: when some request of a run is fulfilled with an empty collection, the run
hands nothing to `transformData`, returns `undefined`, calls `setData` not once and
leaves the cache as it was, whatever the other requests deliver. -/
theorem C10_empty_result_aborts_run {ε : Type} (cfg : Config) (env : Collaborators ε)
    (cache : Cache ε) (startTime : Int) (countries : List Country)
    (hc : env.getCountries = .ok countries)
    (hempty : ∃ (n : Nat) (code : String),
      (prepareEmissionsByCountry cfg env cache startTime).requests[n]? = some code ∧
      env.fetchData n code = Settled.fulfilled []) :
    (prepareEmissionsByCountry cfg env cache startTime).returned = none ∧
    (prepareEmissionsByCountry cfg env cache startTime).writes = [] ∧
    (prepareEmissionsByCountry cfg env cache startTime).cache = cache ∧
    (prepareEmissionsByCountry cfg env cache startTime).handed = [] := by
  obtain ⟨hreq, hrest⟩ := run_cases cfg env cache startTime countries hc
  rw [hreq] at hempty
  have hmem : ([] : List RawRecord) ∈ fulfilledValues (issuedPromises env.fetchData
      (requestedCodes cfg JsObject.empty countries)) := by
    rw [mem_fulfilledValues_issued]
    exact hempty
  have herr := keyByCountryName_error _ hmem JsObject.empty
  rcases hrest with ⟨_, _, hh, hw, hcache, hret⟩ | ⟨m, hkey, _⟩
  · exact ⟨hret, hw, hcache, hh⟩
  · rw [herr] at hkey; cases hkey

/-- C10, at a run whose first request delivers a record and whose second request is
fulfilled with an empty collection; the cache holds an earlier snapshot. -/
theorem C10_empty_result_aborts_run_witness :
    (prepareEmissionsByCountry sampleConfig emptyResultEnv
        [("emissions", CacheValue.emissions [7])] 0).returned = none ∧
    (prepareEmissionsByCountry sampleConfig emptyResultEnv
        [("emissions", CacheValue.emissions [7])] 0).writes = [] ∧
    (prepareEmissionsByCountry sampleConfig emptyResultEnv
        [("emissions", CacheValue.emissions [7])] 0).cache
          = [("emissions", CacheValue.emissions [7])] ∧
    (prepareEmissionsByCountry sampleConfig emptyResultEnv
        [("emissions", CacheValue.emissions [7])] 0).handed = [] :=
  C10_empty_result_aborts_run sampleConfig emptyResultEnv _ 0
    [⟨"ES", "Spain"⟩, ⟨"FR", "France"⟩] rfl ⟨1, "FR", by decide, rfl⟩

end Seeds
